import Mathlib

set_option maxRecDepth 100000

/-!
Shallow embedding of the dev-journal server (Go) for specification checking.

The embedding covers:
* the page registry backed by SQLite (internal/database/database.go),
* the webhook authenticator and handlers (internal/server/handlers.go),
* the content tree reconciler (internal/content/sync.go),
* a byte-level HMAC-SHA256 used by the authenticator.

Registry state is a list of rows; SQL statements are translated to the
list transformation they perform on the single `pages` table.
-/

namespace DevJournal

/-- Registry row of the `pages` table: path (primary key), title,
visibility flag (schema default TRUE), visit counter (default 0). -/
structure Page where
  path : String
  title : String
  isVisible : Bool
  visitCount : Nat
deriving Repr, DecidableEq

/-! ### Go standard library helpers used by database.go -/

/-- Embedding of Go strings.HasSuffix: len(s) >= len(suffix) and the final
bytes of s equal suffix. -/
def goHasSuffix (s suf : String) : Bool :=
  decide (suf.data.length ≤ s.data.length) &&
    decide (s.data.drop (s.data.length - suf.data.length) = suf.data)

/-- Embedding of Go strings.TrimSuffix: removes the trailing suffix when
present, otherwise returns s unchanged. -/
def goTrimSuffix (s suf : String) : String :=
  if goHasSuffix s suf then String.mk (s.data.take (s.data.length - suf.data.length)) else s

/-- Helper for goExt: scan the reversed path from the end, stopping at a
path separator; on the last dot, return the dot plus the accumulated tail. -/
def extAux : List Char → List Char → List Char
  | [], _ => []
  | c :: rest, acc =>
    if c = '/' then []
    else if c = '.' then c :: acc
    else extAux rest (c :: acc)

/-- Embedding of Go path/filepath Ext: the suffix beginning at the final dot
in the final element of the path; empty when there is no dot. -/
def goExt (path : String) : String := String.mk (extAux path.data.reverse [])

/-- Embedding of Go path/filepath Base: last element of the path after
removing trailing separators; "." for the empty path, "/" when the path
consists only of separators. -/
def goBase (path : String) : String :=
  if path = "" then "."
  else
    let trimmed := (path.data.reverse.dropWhile (fun c => c = '/')).reverse
    let last := (trimmed.reverse.takeWhile (fun c => c ≠ '/')).reverse
    if last = [] then "/" else String.mk last

/-- Embedding of Go strings.ReplaceAll for a single-character pattern and a
single-character replacement. -/
def replaceChar (s : String) (a b : Char) : String :=
  String.mk (s.data.map fun c => if c = a then b else c)

/-- Embedding of the ASCII fragment of Go strings.isSeparator: ASCII
digits, letters and underscore are not separators, every other ASCII rune
is. The repository only feeds ASCII paths to it; non-ASCII characters are
modelled as non-separators (Go additionally consults Unicode tables there). -/
def goIsSeparator (c : Char) : Bool :=
  if c.toNat ≤ 0x7F then
    if ('0' ≤ c && c ≤ '9') || ('a' ≤ c && c ≤ 'z') || ('A' ≤ c && c ≤ 'Z') || c = '_' then
      false
    else
      true
  else false

/-- Helper for goTitle: map each character, uppercasing it when the
previous character of the input is a separator, as Go strings.Title does.
Char.toUpper matches unicode.ToTitle on the ASCII letters involved. -/
def titleMap : Char → List Char → List Char
  | _, [] => []
  | prev, c :: rest =>
    (if goIsSeparator prev then c.toUpper else c) :: titleMap c rest

/-- Embedding of Go strings.Title (ASCII fragment): uppercase every
character that follows a separator, the imaginary character before the
string being a space. -/
def goTitle (s : String) : String := String.mk (titleMap ' ' s.data)

/-! ### internal/database/database.go -/

/-- Embedding of pathToTitle: strip the extension, take the base name,
replace dashes and underscores with spaces, then title-case. -/
def pathToTitle (path : String) : String :=
  let base := goTrimSuffix path (goExt path)
  let base := goBase base
  let base := replaceChar base '-' ' '
  let base := replaceChar base '_' ' '
  goTitle base

/-- Embedding of DB.UpsertPage: INSERT with ON CONFLICT(path) DO NOTHING.
If a row with the path exists the table is unchanged; otherwise a row is
inserted with the derived title and the schema defaults is_visible = TRUE
and visit_count = 0. -/
def upsertPage (db : List Page) (path : String) : List Page :=
  if db.any (fun p => p.path == path) then db
  else db ++ [{ path := path, title := pathToTitle path, isVisible := true, visitCount := 0 }]

/-- Error channel of registry mutations. The Go functions return error;
sqlite reports engine failures there, which the model excludes, so the
only point of the type is to record which operations can produce a
not-found outcome. -/
inductive DBErr
  | notFound
deriving Repr, DecidableEq

/-- Embedding of DB.ToggleVisibility: UPDATE pages SET is_visible = NOT
is_visible WHERE path = ?. The statement flips every matching row; when no
row matches it affects zero rows, and db.Exec reports that as success, so
the function never returns a not-found error. -/
def toggleVisibility (db : List Page) (path : String) : Except DBErr (List Page) :=
  .ok (db.map fun p => if p.path == path then { p with isVisible := !p.isVisible } else p)

/-- Embedding of DB.GetPageByPath: SELECT ... WHERE path = ?; sql.ErrNoRows
(here: none) when no row matches. -/
def getPageByPath (db : List Page) (path : String) : Option Page :=
  db.find? (fun p => p.path == path)

/-- Embedding of DB.IncrementVisitCount: UPDATE pages SET visit_count =
visit_count + 1 WHERE path = ?; errors are only logged. -/
def incrementVisitCount (db : List Page) (path : String) : List Page :=
  db.map fun p => if p.path == path then { p with visitCount := p.visitCount + 1 } else p

/-- Row ordering used by ORDER BY path: bytewise comparison of the path
text, which on UTF-8 agrees with code-point order. -/
def pageLE (p q : Page) : Bool := decide (p.path ≤ q.path)

/-- Display transformation GetVisiblePages applies to each scanned row:
trim the trailing ".md", and rewrite the home page to "/". -/
def displayPath (p : String) : String :=
  let q := goTrimSuffix p ".md"
  if q = "home" then "/" else q

/-- Navigation row produced by GetVisiblePages: only path and title are
scanned. -/
structure NavPage where
  path : String
  title : String
deriving Repr, DecidableEq

/-- Row-to-navigation conversion inside the GetVisiblePages scan loop. -/
def displayRow (p : Page) : NavPage := { path := displayPath p.path, title := p.title }

/-- Embedding of DB.GetVisiblePages: SELECT path, title FROM pages WHERE
is_visible = TRUE ORDER BY path, then the per-row display transformation. -/
def getVisiblePages (db : List Page) : List NavPage :=
  ((db.filter (fun p => p.isVisible)).mergeSort pageLE).map displayRow

/-- Embedding of DB.GetAllPages: SELECT every column ORDER BY path. -/
def getAllPages (db : List Page) : List Page :=
  db.mergeSort pageLE

/-! ### crypto/sha256 and crypto/hmac

Bytes are naturals below 256, 32-bit words are naturals below 2^32 with
explicit truncation. -/

/-- Truncation to a 32-bit word. -/
def w32 (n : Nat) : Nat := n % 4294967296

/-- Rotate a 32-bit word right by n bits (0 < n < 32). -/
def rotr (n x : Nat) : Nat := w32 ((x >>> n) ||| (x <<< (32 - n)))

/-- SHA-256 round constants (FIPS 180-4, in decimal). -/
def sha256K : List Nat :=
  [1116352408, 1899447441, 3049323471, 3921009573, 961987163,
   1508970993, 2453635748, 2870763221, 3624381080, 310598401,
   607225278, 1426881987, 1925078388, 2162078206, 2614888103,
   3248222580, 3835390401, 4022224774, 264347078, 604807628,
   770255983, 1249150122, 1555081692, 1996064986, 2554220882,
   2821834349, 2952996808, 3210313671, 3336571891, 3584528711,
   113926993, 338241895, 666307205, 773529912, 1294757372,
   1396182291, 1695183700, 1986661051, 2177026350, 2456956037,
   2730485921, 2820302411, 3259730800, 3345764771, 3516065817,
   3600352804, 4094571909, 275423344, 430227734, 506948616,
   659060556, 883997877, 958139571, 1322822218, 1537002063,
   1747873779, 1955562222, 2024104815, 2227730452, 2361852424,
   2428436474, 2756734187, 3204031479, 3329325298]

/-- SHA-256 working state: eight 32-bit words. -/
structure Sha256State where
  a : Nat
  b : Nat
  c : Nat
  d : Nat
  e : Nat
  f : Nat
  g : Nat
  h : Nat
deriving Repr, DecidableEq

/-- SHA-256 initial hash value (FIPS 180-4, in decimal). -/
def sha256H0 : Sha256State :=
  ⟨1779033703, 3144134277, 1013904242, 2773480762,
   1359893119, 2600822924, 528734635, 1541459225⟩

/-- Big sigma-0 of the compression function. -/
def bigSigma0 (x : Nat) : Nat := (rotr 2 x) ^^^ (rotr 13 x) ^^^ (rotr 22 x)

/-- Big sigma-1 of the compression function. -/
def bigSigma1 (x : Nat) : Nat := (rotr 6 x) ^^^ (rotr 11 x) ^^^ (rotr 25 x)

/-- Small sigma-0 of the message schedule. -/
def smallSigma0 (x : Nat) : Nat := (rotr 7 x) ^^^ (rotr 18 x) ^^^ (x >>> 3)

/-- Small sigma-1 of the message schedule. -/
def smallSigma1 (x : Nat) : Nat := (rotr 17 x) ^^^ (rotr 19 x) ^^^ (x >>> 10)

/-- Choice function: bits of f where e is set, of g where e is clear. -/
def chFn (e f g : Nat) : Nat := (e &&& f) ^^^ ((e ^^^ 0xffffffff) &&& g)

/-- Majority function over three words. -/
def majFn (a b c : Nat) : Nat := (a &&& b) ^^^ (a &&& c) ^^^ (b &&& c)

/-- Group bytes into big-endian 32-bit words. -/
def toWords : List Nat → List Nat
  | a :: b :: c :: d :: rest => (((a * 256 + b) * 256 + c) * 256 + d) :: toWords rest
  | _ => []

/-- Extend the 16 block words to the 64-entry message schedule. -/
def extendW (w : List Nat) : List Nat :=
  (List.range 48).foldl (fun w i =>
    w ++ [w32 (w.getD i 0 + smallSigma0 (w.getD (i+1) 0) + w.getD (i+9) 0 +
      smallSigma1 (w.getD (i+14) 0))]) w

/-- One round of the SHA-256 compression function; kw is the round
constant paired with the schedule word. -/
def sha256Round (s : Sha256State) (kw : Nat × Nat) : Sha256State :=
  let t1 := w32 (s.h + bigSigma1 s.e + chFn s.e s.f s.g + kw.1 + kw.2)
  let t2 := w32 (bigSigma0 s.a + majFn s.a s.b s.c)
  ⟨w32 (t1 + t2), s.a, s.b, s.c, w32 (s.d + t1), s.e, s.f, s.g⟩

/-- Compress one 64-byte block into the running state. -/
def sha256Compress (s : Sha256State) (block : List Nat) : Sha256State :=
  let t := ((sha256K.zip (extendW (toWords block))).foldl sha256Round s)
  ⟨w32 (s.a + t.a), w32 (s.b + t.b), w32 (s.c + t.c), w32 (s.d + t.d),
   w32 (s.e + t.e), w32 (s.f + t.f), w32 (s.g + t.g), w32 (s.h + t.h)⟩

/-- Big-endian bytes of a 64-bit length. -/
def be64 (n : Nat) : List Nat :=
  [(n >>> 56) &&& 255, (n >>> 48) &&& 255, (n >>> 40) &&& 255, (n >>> 32) &&& 255,
   (n >>> 24) &&& 255, (n >>> 16) &&& 255, (n >>> 8) &&& 255, n &&& 255]

/-- Big-endian bytes of a 32-bit word. -/
def be32 (n : Nat) : List Nat :=
  [(n >>> 24) &&& 255, (n >>> 16) &&& 255, (n >>> 8) &&& 255, n &&& 255]

/-- SHA-256 padding: a 0x80 byte, zeros to 56 mod 64, and the bit length. -/
def sha256Pad (msg : List Nat) : List Nat :=
  msg ++ [0x80] ++ List.replicate ((119 - msg.length % 64) % 64) 0 ++ be64 (8 * msg.length)

/-- Helper for toBlocks: cur holds the bytes of the current block in
reverse; a block is emitted once it reaches 64 bytes. -/
def toBlocksAux : List Nat → List Nat → List (List Nat)
  | cur, [] => if cur = [] then [] else [cur.reverse]
  | cur, b :: rest =>
    if 63 ≤ cur.length then (cur.reverse ++ [b]) :: toBlocksAux [] rest
    else toBlocksAux (b :: cur) rest

/-- Split a byte list into 64-byte blocks (the padded input is always a
positive multiple of 64 bytes long). -/
def toBlocks (l : List Nat) : List (List Nat) := toBlocksAux [] l

/-- SHA-256 of a byte list, as 32 bytes. -/
def sha256 (msg : List Nat) : List Nat :=
  let s := (toBlocks (sha256Pad msg)).foldl sha256Compress sha256H0
  be32 s.a ++ be32 s.b ++ be32 s.c ++ be32 s.d ++ be32 s.e ++ be32 s.f ++ be32 s.g ++ be32 s.h

/-- HMAC-SHA256: hash an over-long key, zero-pad to the 64-byte block,
then nest the two keyed hashes with the 0x36 and 0x5c pads. -/
def hmacSha256 (key msg : List Nat) : List Nat :=
  let k0 := if 64 < key.length then sha256 key else key
  let kp := k0 ++ List.replicate (64 - k0.length) 0
  sha256 ((kp.map (fun b => b ^^^ 0x5c)) ++ sha256 ((kp.map (fun b => b ^^^ 0x36)) ++ msg))

/-- Lowercase hex digit of a nibble. -/
def hexDigit (n : Nat) : Char := "0123456789abcdef".data.getD n '0'

/-- Character list of the hex encoding: two lowercase digits per byte,
high nibble first. -/
def hexChars : List Nat → List Char
  | [] => []
  | b :: bs => hexDigit (b / 16) :: hexDigit (b % 16) :: hexChars bs

/-- Embedding of encoding/hex EncodeToString: two lowercase hex digits per
byte. -/
def hexEncode (bytes : List Nat) : String :=
  String.mk (hexChars bytes)

/-! ### internal/server/handlers.go: the webhook handler -/

/-- Outcomes of handleWebhook, one constructor per exit point of the Go
handler (the io.ReadAll failure exit is outside the model: the body is
given). -/
inductive WebhookOutcome
  | missingSignature
  | invalidSignature
  | invalidPayload
  | ignoredRef
  | accepted
deriving Repr, DecidableEq

/-- HTTP status code written by each exit of handleWebhook. -/
def WebhookOutcome.status : WebhookOutcome → Nat
  | .missingSignature => 400
  | .invalidSignature => 403
  | .invalidPayload => 400
  | .ignoredRef => 200
  | .accepted => 202

/-- Whether the exit launches the background pull-then-sync goroutine. -/
def WebhookOutcome.schedulesSync : WebhookOutcome → Bool
  | .accepted => true
  | _ => false

/-- Signature header value the handler computes and compares against:
the string sha256= followed by the lowercase hex HMAC-SHA256 of the raw
body under the webhook secret. -/
def expectedSig (secret body : List Nat) : String :=
  "sha256=" ++ hexEncode (hmacSha256 secret body)

/-- Embedding of handleWebhook. The JSON decoding is the standard library
and is passed in as parseRef: none models a json.Unmarshal error, some r
models success, with r the `ref` field when present as a string. The
signature is the header value, the empty string when the header is absent
(r.Header.Get); hmac.Equal is constant-time byte equality, modelled as
string equality. The goroutine is not executed here; the outcome records
that it was scheduled. -/
def handleWebhook (parseRef : List Nat → Option (Option String))
    (secret : List Nat) (signature : String) (body : List Nat) : WebhookOutcome :=
  if signature = "" then .missingSignature
  else if signature ≠ expectedSig secret body then .invalidSignature
  else
    match parseRef body with
    | none => .invalidPayload
    | some r =>
      match r with
      | some ref =>
        if ref = "refs/heads/main" || ref = "refs/heads/master" then .accepted
        else .ignoredRef
      | none => .ignoredRef

/-! ### internal/content/sync.go: the tree reconciler

filepath.WalkDir is the standard library; the tree it enumerates is
modelled as a value, and a missing or unreadable root (the case in which
WalkDir hands the callback an error and the callback returns it, aborting
the walk) as the absence of that value. Per-file upsert failures are
injected through a fault predicate, since the model excludes engine
failures. -/

/-- Entry of the content tree: a regular file or a directory. -/
inductive FSEntry
  | file (name : String)
  | dir (name : String) (entries : List FSEntry)
deriving Repr

mutual

/-- Relative slash-separated paths of the .md regular files below one
entry, in traversal order; pre is the prefix contributed by the enclosing
directories ("" at the root). WalkDir hands the callback each entry; the
callback acts only on non-directories whose name ends in ".md", and
filepath.Rel followed by filepath.ToSlash yields exactly this prefixed
name. -/
def mdPathsEntry (pre : String) : FSEntry → List String
  | .file n => if goHasSuffix n ".md" then [pre ++ n] else []
  | .dir n es => mdPathsList (pre ++ n ++ "/") es

/-- Relative paths of the .md regular files below a list of entries. -/
def mdPathsList (pre : String) : List FSEntry → List String
  | [] => []
  | e :: rest => mdPathsEntry pre e ++ mdPathsList pre rest

end

mutual

/-- Registry effect of the Sync callback on one entry: upsert each .md
regular file below it, skipping (and only logging) the files on which the
upsert fails, as modelled by the fault predicate ok. -/
def syncEntry (ok : String → Bool) (pre : String) : FSEntry → List Page → List Page
  | .file n, db =>
    if goHasSuffix n ".md" then
      if ok (pre ++ n) then upsertPage db (pre ++ n) else db
    else db
  | .dir n es, db => syncEntries ok (pre ++ n ++ "/") es db

/-- Registry effect of the Sync callback on a list of entries, left to
right. -/
def syncEntries (ok : String → Bool) (pre : String) : List FSEntry → List Page → List Page
  | [], db => db
  | e :: rest, db => syncEntries ok pre rest (syncEntry ok pre e db)

end

/-- Embedding of content.Sync: walk the tree under the content root and
upsert every discovered .md file. A missing or unreadable root (root =
none) aborts the operation with the wrapped walk error; a per-file upsert
failure is only logged and traversal continues. -/
def contentSync (root : Option (List FSEntry)) (ok : String → Bool)
    (db : List Page) : Except String (List Page) :=
  match root with
  | none => .error "error walking content directory"
  | some es => .ok (syncEntries ok "" es db)

/-! ### internal/server/handlers.go: page serving and administration -/

/-- Observable outcome of renderPage: HTTP status, error message, the
files opened under the content root, and the path whose visit counter the
best-effort goroutine increments. -/
structure RenderOutcome where
  status : Nat
  message : String
  fsReads : List String
  counterBumped : Option String
deriving Repr, DecidableEq

/-- Embedding of renderPage: look the path up in the registry; a lookup
error or an invisible row is a 404 "Page not found" before the file
system or the visit counter is touched; then read the file (fs models
http.Dir Open plus io.ReadAll), convert the markdown (the goldmark
library, passed in), bump the counter, render. -/
def renderPage (db : List Page) (fs : String → Option String)
    (convert : String → Option String) (pagePath : String) : RenderOutcome :=
  match getPageByPath db pagePath with
  | none => ⟨404, "Page not found", [], none⟩
  | some page =>
    if !page.isVisible then ⟨404, "Page not found", [], none⟩
    else
      match fs page.path with
      | none => ⟨500, "Could not read page content", [page.path], none⟩
      | some content =>
        match convert content with
        | none => ⟨500, "Could not render page", [page.path], none⟩
        | some _ => ⟨200, "", [page.path], some page.path⟩

/-- Normalization the admin toggle handler applies before the registry
call: the fetched parameter gets the markdown extension appended when it
lacks it. -/
def ensureMd (p : String) : String :=
  if goHasSuffix p ".md" then p else p ++ ".md"

/-- Outcome of handleAdminToggleVisibility: status and registry state. -/
structure ToggleOutcome where
  status : Nat
  dbAfter : List Page
deriving Repr, DecidableEq

/-- Embedding of chi.URLParam: look the key up among the parameters the
matched route bound, the empty string when the key is not bound. -/
def chiURLParam (params : List (String × String)) (key : String) : String :=
  match params.find? (fun kv => kv.1 == key) with
  | some kv => kv.2
  | none => ""

/-- Parameters chi binds for a request matching the admin toggle route,
registered in RegisterRoutes as POST /admin/pages/<pagePath>/toggle with
pagePath a named route parameter: the pattern contains that single named
parameter and no wildcard, so a request carrying the page path value
binds exactly this list — in chi v5 the subrouter mount resets any outer
wildcard, so no key * is ever bound here. -/
def adminToggleRouteParams (value : String) : List (String × String) :=
  [("pagePath", value)]

/-- Embedding of handleAdminToggleVisibility: fetch the wildcard URL
parameter *, answer 400 when it is empty; otherwise append ".md" when
missing and call ToggleVisibility (error → 500, success → 200 with an
HX-Redirect header). -/
def handleAdminToggleVisibility (db : List Page) (params : List (String × String)) :
    ToggleOutcome :=
  let pagePath := chiURLParam params "*"
  if pagePath = "" then ⟨400, db⟩
  else
    match toggleVisibility db (ensureMd pagePath) with
    | .error _ => ⟨500, db⟩
    | .ok db2 => ⟨200, db2⟩

/-! ### Concurrency model of the scheduled Sync Operation

handleWebhook launches each accepted delivery with `go func() { PullRepo;
Sync }()` and takes no lock, so the steps of two scheduled goroutines may
interleave arbitrarily. A goroutine is modelled by the phases of its
program in order; a trace of two deliveries is any interleaving. -/

/-- Phases of one background pull-then-reconcile goroutine. -/
inductive SyncPhase
  | pullStart
  | pullEnd
  | reconcileStart
  | reconcileEnd
deriving Repr, DecidableEq

/-- Program of one scheduled sync goroutine: pull, then reconcile. -/
def syncJobSteps : List SyncPhase :=
  [.pullStart, .pullEnd, .reconcileStart, .reconcileEnd]

/-- Whether tr is a trace of the two goroutines spawned by two accepted
deliveries: each event names a goroutine (0 or 1), and the subsequence of
each goroutine is exactly its program. Since the handler takes no mutex,
every such interleaving can be scheduled. -/
def isTrace2 (tr : List (Nat × SyncPhase)) : Bool :=
  decide ((tr.filter (fun ev => ev.1 == 0)).map Prod.snd = syncJobSteps) &&
    decide ((tr.filter (fun ev => ev.1 == 1)).map Prod.snd = syncJobSteps) &&
    tr.all (fun ev => ev.1 == 0 || ev.1 == 1)

/-- Helper for overlapping: scan the trace keeping the goroutines whose
Sync Operation is in progress (pull started, reconcile not finished);
report true when a pull starts while another operation is in progress. -/
def overlapAux (active : List Nat) : List (Nat × SyncPhase) → Bool
  | [] => false
  | (i, .pullStart) :: rest =>
    decide (2 ≤ (i :: active).length) || overlapAux (i :: active) rest
  | (i, .reconcileEnd) :: rest => overlapAux (active.erase i) rest
  | _ :: rest => overlapAux active rest

/-- Whether some pull starts while another Sync Operation is still in
progress, the overlap the single-in-flight-sync invariant forbids. -/
def overlapping (tr : List (Nat × SyncPhase)) : Bool := overlapAux [] tr

/-- Concrete schedule of two accepted deliveries in which the second pull
starts while the first reconciliation is still reading the tree. -/
def overlapTrace : List (Nat × SyncPhase) :=
  [(0, .pullStart), (0, .pullEnd), (0, .reconcileStart),
   (1, .pullStart), (1, .pullEnd), (1, .reconcileStart),
   (0, .reconcileEnd), (1, .reconcileEnd)]

/-- Home page row used by several concrete examples. -/
def homeRow : Page :=
  { path := "home.md", title := "Home", isVisible := true, visitCount := 0 }

/-- Hidden row used by concrete examples. -/
def hiddenRow : Page :=
  { path := "secret.md", title := "Secret", isVisible := false, visitCount := 0 }

/-- Concrete content tree used by the reconciler examples. -/
def syncTree : List FSEntry :=
  [.file "home.md", .dir "blog" [.file "post.md", .file "cat.png"]]

/-- Fault model used by the reconciler examples: the upsert of home.md
fails, every other upsert succeeds. -/
def syncFault (rel : String) : Bool := !(rel == "home.md")

/-! ## Helper lemmas -/

/-- Every byte emitted by be32 is below 256. -/
theorem be32_lt (x : Nat) : ∀ b ∈ be32 x, b < 256 := by
  simp only [be32, List.mem_cons, List.not_mem_nil, or_false]
  rintro b (rfl | rfl | rfl | rfl) <;> exact Nat.lt_succ_of_le Nat.and_le_right

/-- Every byte of a SHA-256 digest is below 256. -/
theorem sha256_lt (msg : List Nat) : ∀ b ∈ sha256 msg, b < 256 := by
  intro b hb
  simp only [sha256, List.mem_append] at hb
  rcases hb with ((((((h | h) | h) | h) | h) | h) | h) | h <;> exact be32_lt _ _ h

/-- Every byte of an HMAC-SHA256 tag is below 256. -/
theorem hmacSha256_lt (key msg : List Nat) : ∀ b ∈ hmacSha256 key msg, b < 256 := by
  intro b hb
  simp only [hmacSha256] at hb
  exact sha256_lt _ b hb

/-- hexDigit is injective on nibbles. -/
theorem hexDigit_inj : ∀ a < 16, ∀ b < 16, hexDigit a = hexDigit b → a = b := by decide

/-- Hex encoding is injective on byte lists. -/
theorem hexChars_inj : ∀ xs ys, (∀ b ∈ xs, b < 256) → (∀ b ∈ ys, b < 256) →
    hexChars xs = hexChars ys → xs = ys
  | [], [], _, _, _ => rfl
  | [], _ :: _, _, _, h => by simp [hexChars] at h
  | _ :: _, [], _, _, h => by simp [hexChars] at h
  | x :: xs, y :: ys, hx, hy, h => by
    simp only [hexChars, List.cons.injEq] at h
    obtain ⟨h1, h2, h3⟩ := h
    have hxlt := hx x (List.mem_cons_self ..)
    have hylt := hy y (List.mem_cons_self ..)
    have e1 : x / 16 = y / 16 := hexDigit_inj _ (by omega) _ (by omega) h1
    have e2 : x % 16 = y % 16 := hexDigit_inj _ (by omega) _ (by omega) h2
    have exy : x = y := by omega
    subst exy
    have := hexChars_inj xs ys (fun b hb => hx b (List.mem_cons_of_mem _ hb))
      (fun b hb => hy b (List.mem_cons_of_mem _ hb)) h3
    rw [this]

/-- The expected signature header is never the empty string, so a valid
signature is never confused with a missing header. -/
theorem expectedSig_ne_empty (secret body : List Nat) : expectedSig secret body ≠ "" := by
  intro h
  have h2 := congrArg String.length h
  simp only [expectedSig, String.length_append] at h2
  have e7 : ("sha256=" : String).length = 7 := rfl
  have e0 : ("" : String).length = 0 := rfl
  omega

/-- Distinct HMAC tags produce distinct signature headers. -/
theorem expectedSig_ne_of_mac_ne (secret body tampered : List Nat)
    (h : hmacSha256 secret body ≠ hmacSha256 secret tampered) :
    expectedSig secret body ≠ expectedSig secret tampered := by
  intro he
  apply h
  have hd : "sha256=".data ++ hexChars (hmacSha256 secret body)
      = "sha256=".data ++ hexChars (hmacSha256 secret tampered) := congrArg String.data he
  exact hexChars_inj _ _ (hmacSha256_lt secret body) (hmacSha256_lt secret tampered)
    (List.append_cancel_left hd)

/-- Behaviour of handleWebhook under a valid signature and an unparsable
body. -/
theorem handleWebhook_validSig_none (parseRef : List Nat → Option (Option String))
    (secret body : List Nat) (h : parseRef body = none) :
    handleWebhook parseRef secret (expectedSig secret body) body = .invalidPayload := by
  unfold handleWebhook
  rw [if_neg (expectedSig_ne_empty secret body), if_neg (fun hne => hne rfl), h]

/-- Behaviour of handleWebhook under a valid signature when the payload
parses but carries no string `ref` field. -/
theorem handleWebhook_validSig_noRef (parseRef : List Nat → Option (Option String))
    (secret body : List Nat) (h : parseRef body = some none) :
    handleWebhook parseRef secret (expectedSig secret body) body = .ignoredRef := by
  unfold handleWebhook
  rw [if_neg (expectedSig_ne_empty secret body), if_neg (fun hne => hne rfl), h]

/-- Behaviour of handleWebhook under a valid signature when the payload
carries a `ref` field. -/
theorem handleWebhook_validSig_ref (parseRef : List Nat → Option (Option String))
    (secret body : List Nat) (ref : String) (h : parseRef body = some (some ref)) :
    handleWebhook parseRef secret (expectedSig secret body) body =
      if ref = "refs/heads/main" || ref = "refs/heads/master" then .accepted
      else .ignoredRef := by
  unfold handleWebhook
  rw [if_neg (expectedSig_ne_empty secret body), if_neg (fun hne => hne rfl), h]

/-- Behaviour of handleWebhook when the signature header is absent. -/
theorem handleWebhook_noSig (parseRef : List Nat → Option (Option String))
    (secret body : List Nat) :
    handleWebhook parseRef secret "" body = .missingSignature := by
  unfold handleWebhook
  rw [if_pos rfl]

/-- Behaviour of handleWebhook on a present but mismatching signature. -/
theorem handleWebhook_badSig (parseRef : List Nat → Option (Option String))
    (secret body : List Nat) (sig : String) (h1 : sig ≠ "")
    (h2 : sig ≠ expectedSig secret body) :
    handleWebhook parseRef secret sig body = .invalidSignature := by
  unfold handleWebhook
  rw [if_neg h1, if_pos h2]

/-! ## Claim theorems -/

/-- C1: handleWebhook accepts a delivery whose signature header equals
sha256= followed by the lowercase-hex HMAC-SHA256 of the exact raw body
under the secret (it is neither rejected as missing nor as mismatching);
a missing header is rejected with 400; a present but mismatching header
is rejected with 403; and a delivery whose body was tampered with, so
that its HMAC tag differs, is rejected with 403.  The constant-time
hmac.Equal is modelled as equality of the compared strings. -/
theorem webhook_signature_verification :
    (∀ parseRef secret body,
      handleWebhook parseRef secret (expectedSig secret body) body ≠ WebhookOutcome.missingSignature
      ∧ handleWebhook parseRef secret (expectedSig secret body) body ≠ WebhookOutcome.invalidSignature)
    ∧ (∀ parseRef secret body,
      handleWebhook parseRef secret "" body = WebhookOutcome.missingSignature
      ∧ (handleWebhook parseRef secret "" body).status = 400)
    ∧ (∀ parseRef secret body sig, sig ≠ "" → sig ≠ expectedSig secret body →
      handleWebhook parseRef secret sig body = WebhookOutcome.invalidSignature
      ∧ (handleWebhook parseRef secret sig body).status = 403)
    ∧ (∀ parseRef secret body tampered,
      hmacSha256 secret tampered ≠ hmacSha256 secret body →
      handleWebhook parseRef secret (expectedSig secret body) tampered
        = WebhookOutcome.invalidSignature) := by
  refine ⟨?_, ?_, ?_, ?_⟩
  · intro parseRef secret body
    cases hp : parseRef body with
    | none =>
      rw [handleWebhook_validSig_none parseRef secret body hp]
      exact ⟨by decide, by decide⟩
    | some r =>
      cases r with
      | none =>
        rw [handleWebhook_validSig_noRef parseRef secret body hp]
        exact ⟨by decide, by decide⟩
      | some ref =>
        rw [handleWebhook_validSig_ref parseRef secret body ref hp]
        constructor <;> split <;> decide
  · intro parseRef secret body
    rw [handleWebhook_noSig]
    exact ⟨rfl, rfl⟩
  · intro parseRef secret body sig h1 h2
    rw [handleWebhook_badSig parseRef secret body sig h1 h2]
    exact ⟨rfl, rfl⟩
  · intro parseRef secret body tampered h
    exact handleWebhook_badSig parseRef secret tampered _ (expectedSig_ne_empty secret body)
      (fun he => (expectedSig_ne_of_mac_ne secret body tampered (fun hm => h hm.symm)) he)

/-- Witness for C1 at concrete inputs: the empty secret and body, the
mismatching header "x", and the tampered body [97]. -/
theorem webhook_signature_verification_witness :
    ("x" : String) ≠ ""
    ∧ "x" ≠ expectedSig [] []
    ∧ hmacSha256 [] [97] ≠ hmacSha256 [] []
    ∧ handleWebhook (fun _ => none) [] (expectedSig [] []) [] ≠ WebhookOutcome.missingSignature
    ∧ handleWebhook (fun _ => none) [] "" [] = WebhookOutcome.missingSignature
    ∧ handleWebhook (fun _ => none) [] "x" [] = WebhookOutcome.invalidSignature
    ∧ handleWebhook (fun _ => none) [] (expectedSig [] []) [97] = WebhookOutcome.invalidSignature := by
  have h1 : ("x" : String) ≠ "" := by decide
  have h2 : ("x" : String) ≠ expectedSig [] [] := by decide
  have h4 : hmacSha256 [] [97] ≠ hmacSha256 [] [] := by decide
  exact ⟨h1, h2, h4,
    (webhook_signature_verification.1 (fun _ => none) [] []).1,
    (webhook_signature_verification.2.1 (fun _ => none) [] []).1,
    (webhook_signature_verification.2.2.1 (fun _ => none) [] [] "x" h1 h2).1,
    webhook_signature_verification.2.2.2 (fun _ => none) [] [] [97] h4⟩

/-- C2: under a valid signature, an unparsable body is rejected with 400;
a parsable body whose ref field is absent or differs from both tracked
branch references yields 200 and schedules no sync; a tracked ref yields
202 with the pull-then-reconcile operation scheduled asynchronously — the
response carries no information about the outcome of the scheduled
work. -/
theorem webhook_dispatch :
    ∀ parseRef secret body,
      (parseRef body = none →
        handleWebhook parseRef secret (expectedSig secret body) body = WebhookOutcome.invalidPayload
        ∧ (handleWebhook parseRef secret (expectedSig secret body) body).status = 400
        ∧ (handleWebhook parseRef secret (expectedSig secret body) body).schedulesSync = false)
      ∧ (parseRef body = some none →
        handleWebhook parseRef secret (expectedSig secret body) body = WebhookOutcome.ignoredRef
        ∧ (handleWebhook parseRef secret (expectedSig secret body) body).status = 200
        ∧ (handleWebhook parseRef secret (expectedSig secret body) body).schedulesSync = false)
      ∧ (∀ ref, parseRef body = some (some ref) →
        ref ≠ "refs/heads/main" → ref ≠ "refs/heads/master" →
        handleWebhook parseRef secret (expectedSig secret body) body = WebhookOutcome.ignoredRef
        ∧ (handleWebhook parseRef secret (expectedSig secret body) body).status = 200
        ∧ (handleWebhook parseRef secret (expectedSig secret body) body).schedulesSync = false)
      ∧ (∀ ref, parseRef body = some (some ref) →
        (ref = "refs/heads/main" ∨ ref = "refs/heads/master") →
        handleWebhook parseRef secret (expectedSig secret body) body = WebhookOutcome.accepted
        ∧ (handleWebhook parseRef secret (expectedSig secret body) body).status = 202
        ∧ (handleWebhook parseRef secret (expectedSig secret body) body).schedulesSync = true) := by
  intro parseRef secret body
  refine ⟨?_, ?_, ?_, ?_⟩
  · intro h
    rw [handleWebhook_validSig_none parseRef secret body h]
    exact ⟨rfl, rfl, rfl⟩
  · intro h
    rw [handleWebhook_validSig_noRef parseRef secret body h]
    exact ⟨rfl, rfl, rfl⟩
  · intro ref h hm1 hm2
    rw [handleWebhook_validSig_ref parseRef secret body ref h]
    rw [if_neg (by simp [hm1, hm2])]
    exact ⟨rfl, rfl, rfl⟩
  · intro ref h htr
    rw [handleWebhook_validSig_ref parseRef secret body ref h]
    rw [if_pos (by rcases htr with rfl | rfl <;> simp)]
    exact ⟨rfl, rfl, rfl⟩

/-- Witness for C2 at concrete parse outcomes over the empty secret and
body: an unparsable body, a payload without ref, the untracked ref
refs/heads/develop, and the tracked ref refs/heads/main. -/
theorem webhook_dispatch_witness :
    handleWebhook (fun _ => none) [] (expectedSig [] []) [] = WebhookOutcome.invalidPayload
    ∧ handleWebhook (fun _ => some none) [] (expectedSig [] []) [] = WebhookOutcome.ignoredRef
    ∧ handleWebhook (fun _ => some (some "refs/heads/develop")) [] (expectedSig [] []) []
        = WebhookOutcome.ignoredRef
    ∧ handleWebhook (fun _ => some (some "refs/heads/main")) [] (expectedSig [] []) []
        = WebhookOutcome.accepted
    ∧ (handleWebhook (fun _ => some (some "refs/heads/main")) [] (expectedSig [] []) []).status
        = 202
    ∧ (handleWebhook (fun _ => some (some "refs/heads/main")) [] (expectedSig [] []) []).schedulesSync
        = true := by
  refine ⟨((webhook_dispatch (fun _ => none) [] []).1 rfl).1,
    ((webhook_dispatch (fun _ => some none) [] []).2.1 rfl).1, ?_, ?_, ?_, ?_⟩
  · exact ((webhook_dispatch (fun _ => some (some "refs/heads/develop")) [] []).2.2.1
      "refs/heads/develop" rfl (by decide) (by decide)).1
  · exact ((webhook_dispatch (fun _ => some (some "refs/heads/main")) [] []).2.2.2
      "refs/heads/main" rfl (Or.inl rfl)).1
  · exact ((webhook_dispatch (fun _ => some (some "refs/heads/main")) [] []).2.2.2
      "refs/heads/main" rfl (Or.inl rfl)).2.1
  · exact ((webhook_dispatch (fun _ => some (some "refs/heads/main")) [] []).2.2.2
      "refs/heads/main" rfl (Or.inl rfl)).2.2

/-- The any-scan of upsertPage detects exactly the presence of a row with
the given path. -/
theorem any_path_eq_true_iff (db : List Page) (path : String) :
    db.any (fun p => p.path == path) = true ↔ ∃ row ∈ db, row.path = path := by
  simp [List.any_eq_true]

/-- UpsertPage is a no-op when a row with the path exists. -/
theorem upsertPage_noop (db : List Page) (path : String)
    (h : ∃ row ∈ db, row.path = path) : upsertPage db path = db := by
  unfold upsertPage
  rw [if_pos ((any_path_eq_true_iff db path).mpr h)]

/-- UpsertPage appends the freshly titled, visible row when the path is
absent. -/
theorem upsertPage_insert (db : List Page) (path : String)
    (h : ¬∃ row ∈ db, row.path = path) :
    upsertPage db path
      = db ++ [{ path := path, title := pathToTitle path, isVisible := true, visitCount := 0 }] := by
  unfold upsertPage
  rw [if_neg (fun hc => h ((any_path_eq_true_iff db path).mp hc))]

/-- C3: UpsertPage is idempotent: a second call with the same path
changes nothing; a call on a present path changes nothing; starting from
a registry whose paths are unique, after an upsert there is exactly one
row with the path and path uniqueness is preserved; and any row of the
result is either an old row or the new row, whose title is derived from
the path at insertion time and whose visibility defaults to true. -/
theorem upsertPage_idempotent :
    (∀ db path, upsertPage (upsertPage db path) path = upsertPage db path)
    ∧ (∀ db path, (∃ row ∈ db, row.path = path) → upsertPage db path = db)
    ∧ (∀ db path, (db.map Page.path).Nodup →
        (upsertPage db path).countP (fun p => p.path == path) = 1)
    ∧ (∀ db path, (db.map Page.path).Nodup → ((upsertPage db path).map Page.path).Nodup)
    ∧ (∀ db path row, row ∈ upsertPage db path → row ∈ db
        ∨ row = { path := path, title := pathToTitle path, isVisible := true, visitCount := 0 }) := by
  refine ⟨?_, ?_, ?_, ?_, ?_⟩
  · intro db path
    by_cases h : ∃ row ∈ db, row.path = path
    · rw [upsertPage_noop db path h, upsertPage_noop db path h]
    · rw [upsertPage_insert db path h]
      exact upsertPage_noop _ path
        ⟨{ path := path, title := pathToTitle path, isVisible := true, visitCount := 0 },
          by simp, rfl⟩
  · exact upsertPage_noop
  · intro db path hnd
    by_cases h : ∃ row ∈ db, row.path = path
    · rw [upsertPage_noop db path h]
      have hc : db.countP (fun p => p.path == path) = (db.map Page.path).count path := by
        simp [List.count, List.countP_map, Function.comp_def]
      rw [hc]
      obtain ⟨row, hrow, hpath⟩ := h
      have hmem : path ∈ db.map Page.path := List.mem_map.mpr ⟨row, hrow, hpath⟩
      have hle := List.nodup_iff_count_le_one.mp hnd path
      have hge := List.count_pos_iff.mpr hmem
      omega
    · rw [upsertPage_insert db path h]
      rw [List.countP_append]
      have h0 : db.countP (fun p => p.path == path) = 0 := by
        rw [List.countP_eq_zero]
        intro row hrow
        simp only [beq_iff_eq]
        exact fun hp => h ⟨row, hrow, by simpa using hp⟩
      simp [h0]
  · intro db path hnd
    by_cases h : ∃ row ∈ db, row.path = path
    · rw [upsertPage_noop db path h]; exact hnd
    · rw [upsertPage_insert db path h]
      rw [List.map_append]
      simp only [List.map_cons, List.map_nil]
      rw [List.nodup_append]
      refine ⟨hnd, List.nodup_singleton _, ?_⟩
      intro a ha hb
      simp only [List.mem_singleton] at hb
      subst hb
      obtain ⟨row, hrow, hpath⟩ := List.mem_map.mp ha
      exact h ⟨row, hrow, hpath⟩
  · intro db path row hrow
    by_cases h : ∃ r ∈ db, r.path = path
    · rw [upsertPage_noop db path h] at hrow
      exact Or.inl hrow
    · rw [upsertPage_insert db path h] at hrow
      rcases List.mem_append.mp hrow with hl | hr
      · exact Or.inl hl
      · exact Or.inr (by simpa using hr)

/-- Witness for C3 at the empty registry and the path home.md. -/
theorem upsertPage_idempotent_witness :
    upsertPage (upsertPage [] "home.md") "home.md" = upsertPage [] "home.md"
    ∧ (∃ row ∈ [homeRow], row.path = "home.md")
    ∧ upsertPage [homeRow] "home.md" = [homeRow]
    ∧ (([] : List Page).map Page.path).Nodup
    ∧ (upsertPage [] "home.md").countP (fun p => p.path == "home.md") = 1 := by
  have hex : ∃ row ∈ [homeRow], row.path = "home.md" := ⟨homeRow, by simp, rfl⟩
  have hnd : (([] : List Page).map Page.path).Nodup := by simp
  exact ⟨upsertPage_idempotent.1 [] "home.md",
    hex,
    upsertPage_idempotent.2.1 _ "home.md" hex,
    hnd,
    upsertPage_idempotent.2.2.1 [] "home.md" hnd⟩

/-- C4 counterexample: on a path with no registry row (here: any path in
the empty registry) ToggleVisibility does not fail with NotFound — the
UPDATE matches zero rows and db.Exec reports success — so the claim that
it fails with a NotFound error is false; the registry is left
unchanged. -/
theorem toggleVisibility_notFound_counterexample :
    toggleVisibility ([] : List Page) "a.md" = Except.ok []
    ∧ toggleVisibility ([] : List Page) "a.md" ≠ Except.error DBErr.notFound := by
  exact ⟨rfl, by simp [toggleVisibility]⟩

/-- C4 (amended): on an absent path ToggleVisibility succeeds and leaves
the registry unchanged (it never reports NotFound); on a present path it
flips that row's visibility and leaves the other rows unchanged; it
always succeeds; and two consecutive calls restore the original
registry. -/
theorem toggleVisibility_spec :
    (∀ db path, (∀ row ∈ db, row.path ≠ path) → toggleVisibility db path = .ok db)
    ∧ (∀ db path, ∃ db2, toggleVisibility db path = .ok db2)
    ∧ (∀ db path db2, toggleVisibility db path = .ok db2 → ∀ row ∈ db,
        (row.path = path → { row with isVisible := !row.isVisible } ∈ db2)
        ∧ (row.path ≠ path → row ∈ db2))
    ∧ (∀ db path db2, toggleVisibility db path = .ok db2 →
        toggleVisibility db2 path = .ok db) := by
  refine ⟨?_, ?_, ?_, ?_⟩
  · intro db path h
    unfold toggleVisibility
    congr 1
    have hall : ∀ row ∈ db, (fun p =>
        if p.path == path then { p with isVisible := !p.isVisible } else p) row = id row := by
      intro row hrow
      simp [h row hrow]
    rw [List.map_congr_left hall, List.map_id]
  · intro db path
    exact ⟨_, rfl⟩
  · intro db path db2 h row hrow
    have hdb2 : db2 = db.map (fun p =>
        if p.path == path then { p with isVisible := !p.isVisible } else p) := by
      simpa [toggleVisibility] using h.symm
    subst hdb2
    constructor
    · intro hp
      exact List.mem_map.mpr ⟨row, hrow, by simp [hp]⟩
    · intro hp
      exact List.mem_map.mpr ⟨row, hrow, by simp [hp]⟩
  · intro db path db2 h
    have hdb2 : db2 = db.map (fun p =>
        if p.path == path then { p with isVisible := !p.isVisible } else p) := by
      simpa [toggleVisibility] using h.symm
    subst hdb2
    unfold toggleVisibility
    congr 1
    rw [List.map_map]
    have hdouble : ∀ row ∈ db,
        ((fun p => if p.path == path then { p with isVisible := !p.isVisible } else p) ∘
          (fun p => if p.path == path then { p with isVisible := !p.isVisible } else p)) row
        = id row := by
      intro row _
      obtain ⟨rp, rt, rv, rc⟩ := row
      by_cases hp : rp = path
      · simp [Function.comp_def, hp]
      · simp [Function.comp_def, hp]
    exact (List.map_congr_left hdouble).trans (List.map_id db)

/-- Witness for C4 at the empty registry (absent path) and at a
one-row registry (present path, flip and involution). -/
theorem toggleVisibility_spec_witness :
    (∀ row ∈ ([] : List Page), row.path ≠ "a.md")
    ∧ toggleVisibility ([] : List Page) "a.md" = Except.ok []
    ∧ homeRow ∈ [homeRow] ∧ homeRow.path = "home.md"
    ∧ { homeRow with isVisible := !homeRow.isVisible }
        ∈ [{ homeRow with isVisible := false }]
    ∧ toggleVisibility [{ homeRow with isVisible := false }] "home.md" = Except.ok [homeRow] := by
  have h1 : ∀ row ∈ ([] : List Page), row.path ≠ "a.md" := by simp
  have happ : toggleVisibility [homeRow] "home.md"
      = Except.ok [{ homeRow with isVisible := false }] := rfl
  refine ⟨h1, toggleVisibility_spec.1 [] "a.md" h1, by simp, rfl, ?_, ?_⟩
  · exact (toggleVisibility_spec.2.2.1 [homeRow] "home.md" _ happ homeRow (by simp)).1 rfl
  · exact toggleVisibility_spec.2.2.2 [homeRow] "home.md" _ happ

/-- C7: pathToTitle derives the title by stripping the extension, taking
the final path segment, replacing dashes and underscores with spaces and
capitalizing each word (in the sense of strings.Title); in particular
blog/my-first-post.md derives My First Post and home.md derives Home. -/
theorem pathToTitle_spec :
    pathToTitle "blog/my-first-post.md" = "My First Post"
    ∧ pathToTitle "home.md" = "Home"
    ∧ ∀ path, pathToTitle path =
        goTitle (replaceChar (replaceChar (goBase (goTrimSuffix path (goExt path))) '-' ' ')
          '_' ' ') :=
  ⟨by decide, by decide, fun _ => rfl⟩

/-- Appending a suffix makes goHasSuffix hold. -/
theorem goHasSuffix_append (s t : String) : goHasSuffix (s ++ t) t = true := by
  have hd : (s ++ t).data = s.data ++ t.data := rfl
  unfold goHasSuffix
  rw [hd]
  simp [List.length_append, Nat.add_sub_cancel, List.drop_left]

/-- ensureMd keeps a path that has the markdown extension. -/
theorem ensureMd_of_has (p : String) (h : goHasSuffix p ".md" = true) : ensureMd p = p := by
  unfold ensureMd
  rw [if_pos h]

/-- ensureMd appends the markdown extension when it is missing. -/
theorem ensureMd_of_missing (p : String) (h : goHasSuffix p ".md" = false) :
    ensureMd p = p ++ ".md" := by
  unfold ensureMd
  rw [if_neg (by simp [h])]

/-- C8 (evidence of the defect): the admin toggle route binds the
carried page path to the named parameter pagePath, but the handler
fetches the wildcard parameter *, which this route never binds, so for
every request carrying a page path the handler sees the empty string,
answers 400 with the registry untouched, and never invokes
ToggleVisibility — the claimed append-.md-then-toggle behaviour is
unreachable. -/
theorem adminToggle_wrongParam :
    ∀ db value,
      chiURLParam (adminToggleRouteParams value) "pagePath" = value
      ∧ chiURLParam (adminToggleRouteParams value) "*" = ""
      ∧ handleAdminToggleVisibility db (adminToggleRouteParams value)
          = { status := 400, dbAfter := db } := by
  intro db value
  refine ⟨rfl, rfl, ?_⟩
  unfold handleAdminToggleVisibility
  rw [show chiURLParam (adminToggleRouteParams value) "*" = "" from rfl]
  rfl

/-- C10: a page whose registry row is hidden gets the same 404 Page not
found response as a page with no row at all, with no file-system read
and no visit-counter increment: at the public read interface a hidden
page is indistinguishable from an absent one. -/
theorem renderPage_hidden_spec :
    ∀ db fs convert pagePath,
      (getPageByPath db pagePath = none →
        renderPage db fs convert pagePath
          = { status := 404, message := "Page not found", fsReads := [], counterBumped := none })
      ∧ (∀ page, getPageByPath db pagePath = some page → page.isVisible = false →
        renderPage db fs convert pagePath
          = { status := 404, message := "Page not found", fsReads := [], counterBumped := none }) := by
  intro db fs convert pagePath
  constructor
  · intro h
    unfold renderPage
    rw [h]
  · intro page h hvis
    unfold renderPage
    rw [h]
    simp [hvis]

/-- Witness for C10: in a registry holding only the hidden row, the
absent path ghost.md and the hidden path secret.md produce the identical
404 outcome. -/
theorem renderPage_hidden_witness :
    getPageByPath [hiddenRow] "ghost.md" = none
    ∧ renderPage [hiddenRow] (fun _ => none) (fun _ => none) "ghost.md"
        = { status := 404, message := "Page not found", fsReads := [], counterBumped := none }
    ∧ getPageByPath [hiddenRow] "secret.md" = some hiddenRow
    ∧ hiddenRow.isVisible = false
    ∧ renderPage [hiddenRow] (fun _ => none) (fun _ => none) "secret.md"
        = { status := 404, message := "Page not found", fsReads := [], counterBumped := none } := by
  have h1 : getPageByPath [hiddenRow] "ghost.md" = none := rfl
  have h2 : getPageByPath [hiddenRow] "secret.md" = some hiddenRow := rfl
  exact ⟨h1,
    (renderPage_hidden_spec [hiddenRow] (fun _ => none) (fun _ => none) "ghost.md").1 h1,
    h2, rfl,
    (renderPage_hidden_spec [hiddenRow] (fun _ => none) (fun _ => none) "secret.md").2
      hiddenRow h2 rfl⟩

/-- The comparison used by ORDER BY path is transitive. -/
theorem pageLE_trans : ∀ (a b c : Page), pageLE a b → pageLE b c → pageLE a c := by
  intro a b c hab hbc
  simp only [pageLE, decide_eq_true_eq] at *
  exact le_trans hab hbc

/-- The comparison used by ORDER BY path is total. -/
theorem pageLE_total : ∀ (a b : Page), pageLE a b || pageLE b a := by
  intro a b
  simp only [pageLE, Bool.or_eq_true, decide_eq_true_eq]
  exact le_total a.path b.path

/-- C6: getVisiblePages returns exactly the display forms of the rows
whose visibility flag is true — the membership characterization — where
the rows are sorted by path ascending before the per-row display
transform, which carries over path and title only, strips the .md
extension and rewrites home.md to the root path. -/
theorem getVisiblePages_spec :
    (∀ db nav, nav ∈ getVisiblePages db ↔ ∃ p ∈ db, p.isVisible = true ∧ nav = displayRow p)
    ∧ (∀ db : List Page, ((db.filter (fun p => p.isVisible)).mergeSort pageLE).Pairwise
        (fun p q => p.path ≤ q.path))
    ∧ (∀ db : List Page, getVisiblePages db
        = ((db.filter (fun p => p.isVisible)).mergeSort pageLE).map displayRow)
    ∧ displayPath "home.md" = "/"
    ∧ displayPath "blog/post.md" = "blog/post"
    ∧ (∀ p, displayRow p = { path := displayPath p.path, title := p.title }) := by
  refine ⟨?_, ?_, fun db => rfl, by decide, by decide, fun p => rfl⟩
  · intro db nav
    unfold getVisiblePages
    rw [List.mem_map]
    constructor
    · rintro ⟨p, hp, rfl⟩
      rw [List.mem_mergeSort] at hp
      obtain ⟨hmem, hvis⟩ := List.mem_filter.mp hp
      exact ⟨p, hmem, hvis, rfl⟩
    · rintro ⟨p, hmem, hvis, rfl⟩
      exact ⟨p, List.mem_mergeSort.mpr (List.mem_filter.mpr ⟨hmem, hvis⟩), rfl⟩
  · intro db
    have hs := List.sorted_mergeSort pageLE_trans pageLE_total
      (db.filter (fun p => p.isVisible))
    exact hs.imp (fun h => by simpa [pageLE] using h)

/-- C9 (evidence of the defect): for a tracked ref the handler schedules
the background pull-then-reconcile goroutine without taking any lock, and
the pair of goroutines spawned by two accepted deliveries admits the
interleaving overlapTrace, a legal trace in which the second pull starts
while the first reconciliation is still in progress — the overlap the
single-in-flight-sync invariant forbids. -/
theorem syncOperations_unserialized :
    (∀ parseRef secret body, parseRef body = some (some "refs/heads/main") →
      (handleWebhook parseRef secret (expectedSig secret body) body).schedulesSync = true)
    ∧ isTrace2 overlapTrace = true
    ∧ overlapping overlapTrace = true := by
  refine ⟨?_, by decide, by decide⟩
  intro parseRef secret body h
  rw [handleWebhook_validSig_ref parseRef secret body _ h]
  decide

/-- Witness for C9: the concrete accepted delivery and the concrete
overlapping schedule. -/
theorem syncOperations_unserialized_witness :
    (fun (_ : List Nat) => some (some "refs/heads/main")) ([] : List Nat)
        = some (some "refs/heads/main")
    ∧ (handleWebhook (fun _ => some (some "refs/heads/main")) [] (expectedSig [] [])
        []).schedulesSync = true
    ∧ isTrace2 overlapTrace = true
    ∧ overlapping overlapTrace = true :=
  ⟨rfl,
    syncOperations_unserialized.1 (fun _ => some (some "refs/heads/main")) [] [] rfl,
    syncOperations_unserialized.2.1,
    syncOperations_unserialized.2.2⟩

/-- Rows already present survive an upsert. -/
theorem mem_upsertPage_of_mem {db : List Page} {row : Page} (path : String) (h : row ∈ db) :
    row ∈ upsertPage db path := by
  unfold upsertPage
  split
  · exact h
  · exact List.mem_append_left _ h

/-- After an upsert a row with the given path exists. -/
theorem exists_mem_upsertPage (db : List Page) (path : String) :
    ∃ row ∈ upsertPage db path, row.path = path := by
  by_cases h : ∃ row ∈ db, row.path = path
  · obtain ⟨row, hrow, hp⟩ := h
    exact ⟨row, mem_upsertPage_of_mem path hrow, hp⟩
  · rw [upsertPage_insert db path h]
    exact ⟨{ path := path, title := pathToTitle path, isVisible := true, visitCount := 0 },
      List.mem_append_right _ (by simp), rfl⟩

mutual

/-- Rows already present survive the reconciliation of one entry. -/
theorem mem_syncEntry_of_mem (ok : String → Bool) :
    ∀ (pre : String) (e : FSEntry) (db : List Page) (row : Page),
      row ∈ db → row ∈ syncEntry ok pre e db
  | pre, .file n, db, row, h => by
    unfold syncEntry
    split
    · split
      · exact mem_upsertPage_of_mem _ h
      · exact h
    · exact h
  | pre, .dir n es, db, row, h => by
    unfold syncEntry
    exact mem_syncEntries_of_mem ok (pre ++ n ++ "/") es db row h

/-- Rows already present survive the reconciliation of an entry list. -/
theorem mem_syncEntries_of_mem (ok : String → Bool) :
    ∀ (pre : String) (es : List FSEntry) (db : List Page) (row : Page),
      row ∈ db → row ∈ syncEntries ok pre es db
  | _, [], _, _, h => by
    unfold syncEntries
    exact h
  | pre, e :: rest, db, row, h => by
    unfold syncEntries
    exact mem_syncEntries_of_mem ok pre rest _ row (mem_syncEntry_of_mem ok pre e db row h)

end

mutual

/-- Every discovered .md file below one entry whose upsert succeeds has a
row with its relative path after the entry is reconciled. -/
theorem exists_row_syncEntry (ok : String → Bool) :
    ∀ (pre : String) (e : FSEntry) (db : List Page) (rel : String),
      rel ∈ mdPathsEntry pre e → ok rel = true →
      ∃ row ∈ syncEntry ok pre e db, row.path = rel
  | pre, .file n, db, rel, hmem, hok => by
    unfold mdPathsEntry at hmem
    unfold syncEntry
    by_cases hmd : goHasSuffix n ".md" = true
    · rw [if_pos hmd] at hmem
      rw [if_pos hmd]
      simp only [List.mem_singleton] at hmem
      subst hmem
      rw [if_pos hok]
      exact exists_mem_upsertPage db (pre ++ n)
    · rw [if_neg hmd] at hmem
      exact absurd hmem (List.not_mem_nil rel)
  | pre, .dir n es, db, rel, hmem, hok => by
    unfold mdPathsEntry at hmem
    unfold syncEntry
    exact exists_row_syncEntries ok (pre ++ n ++ "/") es db rel hmem hok

/-- Every discovered .md file below an entry list whose upsert succeeds
has a row with its relative path after the list is reconciled. -/
theorem exists_row_syncEntries (ok : String → Bool) :
    ∀ (pre : String) (es : List FSEntry) (db : List Page) (rel : String),
      rel ∈ mdPathsList pre es → ok rel = true →
      ∃ row ∈ syncEntries ok pre es db, row.path = rel
  | pre, [], _, rel, hmem, _ => by
    unfold mdPathsList at hmem
    exact absurd hmem (List.not_mem_nil rel)
  | pre, e :: rest, db, rel, hmem, hok => by
    unfold mdPathsList at hmem
    unfold syncEntries
    rcases List.mem_append.mp hmem with hl | hr
    · obtain ⟨row, hrow, hp⟩ := exists_row_syncEntry ok pre e db rel hl hok
      exact ⟨row, mem_syncEntries_of_mem ok pre rest _ row hrow, hp⟩
    · exact exists_row_syncEntries ok pre rest _ rel hr hok

end

/-- C5: content.Sync aborts with the wrapped walk error when the root
cannot be enumerated; on a readable tree it always succeeds, even when
the upsert of individual files fails — such a failure only skips that
file; every .md regular file discovered under the root whose upsert
succeeds ends up with a registry row keyed by its slash-separated
relative path; and preexisting rows survive the reconciliation. -/
theorem contentSync_spec :
    (∀ ok db, contentSync none ok db = .error "error walking content directory")
    ∧ (∀ es ok db, ∃ db2, contentSync (some es) ok db = .ok db2)
    ∧ (∀ es ok db rel, rel ∈ mdPathsList "" es → ok rel = true →
        ∃ db2, contentSync (some es) ok db = .ok db2 ∧ ∃ row ∈ db2, row.path = rel)
    ∧ (∀ es ok db row, row ∈ db →
        ∃ db2, contentSync (some es) ok db = .ok db2 ∧ row ∈ db2) := by
  refine ⟨fun ok db => rfl, fun es ok db => ⟨_, rfl⟩, ?_, ?_⟩
  · intro es ok db rel hmem hok
    exact ⟨_, rfl, exists_row_syncEntries ok "" es db rel hmem hok⟩
  · intro es ok db row h
    exact ⟨_, rfl, mem_syncEntries_of_mem ok "" es db row h⟩

/-- Witness for C5 at a concrete tree in which the upsert of home.md
fails and blog/post.md is still reconciled, while the missing root
aborts. -/
theorem contentSync_spec_witness :
    contentSync none syncFault [] = .error "error walking content directory"
    ∧ "blog/post.md" ∈ mdPathsList "" syncTree
    ∧ syncFault "blog/post.md" = true
    ∧ (∃ db2, contentSync (some syncTree) syncFault [] = .ok db2
        ∧ ∃ row ∈ db2, row.path = "blog/post.md")
    ∧ (∃ db2, contentSync (some syncTree) syncFault [homeRow] = .ok db2 ∧ homeRow ∈ db2) := by
  have hmem : "blog/post.md" ∈ mdPathsList "" syncTree := by
    simp only [syncTree, mdPathsList, mdPathsEntry]
    decide
  have hok : syncFault "blog/post.md" = true := by decide
  exact ⟨contentSync_spec.1 syncFault [],
    hmem, hok,
    contentSync_spec.2.2.1 syncTree syncFault [] "blog/post.md" hmem hok,
    contentSync_spec.2.2.2 syncTree syncFault [homeRow] homeRow (by simp)⟩

end DevJournal
